import Mathlib

/-!
# Verification of the slurm-like task manager core

Shallow embedding of `task_manager/core.py` (module `TaskManager` and the
`Task` dataclass) together with the `_send_email` CLI entry point of
`task_manager/cli.py`.  External effects (the tmux driver, the filesystem,
`datetime.now()`) are modelled by an explicit environment record; the
persistent registry file is modelled as a snapshot field of the state.
-/

namespace TaskMgr

/-! ## Decimal printing and parsing

Python serializes `datetime` values with `datetime.isoformat()` and reads
them back with `datetime.fromisoformat`.  We embed the decimal fields:
`padChars w n` is the zero-padded fixed-width decimal rendering used by
`isoformat` (Python `"%0wd" % n`), `parseFixed` the fixed-width decimal
reader used when inverting it. -/

/-- Value of a decimal digit character (`ord(c) - ord('0')`). -/
def digitVal (c : Char) : Nat := c.toNat - 48

/-- Decimal digit characters, most significant first; structural recursion
on a fuel bound (any `fuel > n` gives the digits of `n`). -/
def decCharsAux : Nat → Nat → List Char
  | 0, _ => []
  | fuel + 1, n =>
      if n < 10 then [Nat.digitChar n]
      else decCharsAux fuel (n / 10) ++ [Nat.digitChar (n % 10)]

/-- Decimal digit characters of `n`, most significant first. -/
def decChars (n : Nat) : List Char := decCharsAux (n + 1) n

/-- Zero-padded fixed-width decimal rendering, as in Python `f"{n:0wd}"`. -/
def padChars (w n : Nat) : List Char :=
  List.replicate (w - (decChars n).length) '0' ++ decChars n

/-- Fixed-width decimal reader: consumes exactly `w` digit characters,
accumulating their value onto `acc`. -/
def parseFixed : Nat → List Char → Nat → Option (Nat × List Char)
  | 0, cs, acc => some (acc, cs)
  | _ + 1, [], _ => none
  | w + 1, c :: cs, acc =>
      if c.isDigit then parseFixed w cs (acc * 10 + digitVal c) else none

theorem digitVal_digitChar : ∀ d : Nat, d < 10 → digitVal (Nat.digitChar d) = d := by
  decide

theorem isDigit_digitChar : ∀ d : Nat, d < 10 → (Nat.digitChar d).isDigit = true := by
  decide

theorem decCharsAux_stable (fuel₁ : Nat) :
    ∀ fuel₂ n, n < fuel₁ → n < fuel₂ → decCharsAux fuel₁ n = decCharsAux fuel₂ n := by
  induction fuel₁ with
  | zero => intro fuel₂ n h; omega
  | succ f₁ ih =>
    intro fuel₂ n h₁ h₂
    cases fuel₂ with
    | zero => omega
    | succ f₂ =>
      simp only [decCharsAux]
      by_cases h10 : n < 10
      · simp [h10]
      · have hrec : n / 10 < f₁ ∧ n / 10 < f₂ := by
          constructor <;>
            · have := Nat.div_lt_self (show 0 < n by omega) (show 1 < 10 by omega)
              omega
        rw [if_neg h10, if_neg h10, ih f₂ (n / 10) hrec.1 hrec.2]

theorem decChars_eq (n : Nat) :
    decChars n = if n < 10 then [Nat.digitChar n]
      else decChars (n / 10) ++ [Nat.digitChar (n % 10)] := by
  rw [decChars, decCharsAux]
  by_cases h10 : n < 10
  · simp [h10]
  · rw [if_neg h10, if_neg h10, decChars]
    have hlt : n / 10 < n := Nat.div_lt_self (by omega) (by omega)
    rw [decCharsAux_stable n (n / 10 + 1) (n / 10) (by omega) (by omega)]

theorem decChars_digits (n : Nat) : ∀ c ∈ decChars n, c.isDigit = true := by
  induction n using Nat.strong_induction_on with
  | _ n ih =>
    rw [decChars_eq]
    split
    · intro c hc
      simp only [List.mem_singleton] at hc
      subst hc
      exact isDigit_digitChar n (by omega)
    · intro c hc
      rcases List.mem_append.mp hc with h | h
      · exact ih (n / 10) (Nat.div_lt_self (by omega) (by omega)) c h
      · simp only [List.mem_singleton] at h
        subst h
        exact isDigit_digitChar (n % 10) (Nat.mod_lt _ (by omega))

theorem decChars_length_le (w n : Nat) (hw : 0 < w) (hn : n < 10 ^ w) :
    (decChars n).length ≤ w := by
  induction w generalizing n with
  | zero => omega
  | succ w ih =>
    rw [decChars_eq]
    split
    · simp
    · have h10 : ¬ n < 10 := by assumption
      have hw' : 0 < w := by
        by_contra h0
        have : w = 0 := by omega
        subst this
        simp [pow_succ] at hn
        omega
      have : n / 10 < 10 ^ w := by
        rw [Nat.div_lt_iff_lt_mul (by omega)]
        calc n < 10 ^ (w + 1) := hn
        _ = 10 ^ w * 10 := by ring
      have hle := ih (n / 10) hw' this
      simp only [List.length_append, List.length_singleton]
      omega

theorem foldl_decChars (n acc : Nat) :
    (decChars n).foldl (fun a c => a * 10 + digitVal c) acc
      = acc * 10 ^ (decChars n).length + n := by
  induction n using Nat.strong_induction_on generalizing acc with
  | _ n ih =>
    rw [decChars_eq]
    split
    · simp [digitVal_digitChar n (by omega)]
    · rw [List.foldl_append]
      rw [ih (n / 10) (Nat.div_lt_self (by omega) (by omega)) acc]
      simp only [List.foldl_cons, List.foldl_nil, List.length_append,
        List.length_singleton]
      rw [digitVal_digitChar (n % 10) (Nat.mod_lt _ (by omega))]
      rw [pow_succ]
      have := Nat.div_add_mod n 10
      ring_nf
      omega

theorem padChars_length (w n : Nat) (hw : 0 < w) (hn : n < 10 ^ w) :
    (padChars w n).length = w := by
  have h := decChars_length_le w n hw hn
  simp [padChars]
  omega

theorem padChars_digits (w n : Nat) : ∀ c ∈ padChars w n, c.isDigit = true := by
  intro c hc
  rcases List.mem_append.mp hc with h | h
  · rw [List.eq_of_mem_replicate h]
    decide
  · exact decChars_digits n c h

theorem foldl_padChars (w n acc : Nat) (hw : 0 < w) (hn : n < 10 ^ w) :
    (padChars w n).foldl (fun a c => a * 10 + digitVal c) acc
      = acc * 10 ^ w + n := by
  rw [padChars, List.foldl_append]
  have hz : ∀ (k : Nat) (a : Nat),
      (List.replicate k '0').foldl (fun a c => a * 10 + digitVal c) a
        = a * 10 ^ k := by
    intro k
    induction k with
    | zero => simp
    | succ k ihk =>
      intro a
      rw [List.replicate_succ, List.foldl_cons, ihk]
      have hd : digitVal '0' = 0 := by decide
      rw [hd, pow_succ]
      ring
  rw [hz, foldl_decChars]
  have hlen := decChars_length_le w n hw hn
  have : 10 ^ (w - (decChars n).length) * 10 ^ (decChars n).length = 10 ^ w := by
    rw [← pow_add]
    congr 1
    omega
  calc acc * 10 ^ (w - (decChars n).length) * 10 ^ (decChars n).length + n
      = acc * (10 ^ (w - (decChars n).length) * 10 ^ (decChars n).length) + n := by
        ring
    _ = acc * 10 ^ w + n := by rw [this]

theorem parseFixed_digits :
    ∀ (ds rest : List Char) (acc : Nat), (∀ c ∈ ds, c.isDigit = true) →
      parseFixed ds.length (ds ++ rest) acc
        = some (ds.foldl (fun a c => a * 10 + digitVal c) acc, rest) := by
  intro ds
  induction ds with
  | nil => intro rest acc _; simp [parseFixed]
  | cons c cs ih =>
    intro rest acc hdig
    have hc : c.isDigit = true := hdig c (List.mem_cons_self c cs)
    simp only [List.length_cons, List.cons_append, parseFixed, hc, if_true,
      List.foldl_cons]
    exact ih rest (acc * 10 + digitVal c) fun x hx => hdig x (List.mem_cons_of_mem c hx)

/-- Reading back a zero-padded field recovers the value and leaves the rest. -/
theorem parseFixed_padChars (w n : Nat) (rest : List Char) (hw : 0 < w)
    (hn : n < 10 ^ w) :
    parseFixed w (padChars w n ++ rest) 0 = some (n, rest) := by
  have hlen := padChars_length w n hw hn
  have := parseFixed_digits (padChars w n) rest 0 (padChars_digits w n)
  rw [hlen] at this
  rw [this, foldl_padChars w n 0 hw hn]
  simp

/-! ## Naive `datetime` values

`core.py` only ever builds naive `datetime.now()` values and round-trips
them through `isoformat` / `fromisoformat`.  A value is modelled by its
seven components; `valid` states the ranges `datetime` itself enforces. -/

/-- A naive Python `datetime` value, by components. -/
structure PyDateTime where
  year : Nat
  month : Nat
  day : Nat
  hour : Nat
  minute : Nat
  second : Nat
  microsecond : Nat
  deriving DecidableEq, Repr

/-- The component ranges the Python `datetime` constructor enforces. -/
def PyDateTime.valid (t : PyDateTime) : Prop :=
  1 ≤ t.year ∧ t.year ≤ 9999 ∧ 1 ≤ t.month ∧ t.month ≤ 12 ∧
  1 ≤ t.day ∧ t.day ≤ 31 ∧ t.hour ≤ 23 ∧ t.minute ≤ 59 ∧
  t.second ≤ 59 ∧ t.microsecond ≤ 999999

instance (t : PyDateTime) : Decidable t.valid := by
  unfold PyDateTime.valid
  infer_instance

/-- `datetime.isoformat()` on a naive value: `YYYY-MM-DDTHH:MM:SS`,
with `.ffffff` appended exactly when the microsecond field is nonzero. -/
def isoChars (t : PyDateTime) : List Char :=
  padChars 4 t.year ++ ('-' ::
    (padChars 2 t.month ++ ('-' ::
      (padChars 2 t.day ++ ('T' ::
        (padChars 2 t.hour ++ (':' ::
          (padChars 2 t.minute ++ (':' ::
            (padChars 2 t.second ++
              (if t.microsecond = 0 then []
               else '.' :: padChars 6 t.microsecond)))))))))))

/-- `datetime.isoformat()` as a string. -/
def isoformat (t : PyDateTime) : String := ⟨isoChars t⟩

/-- Consume one expected character. -/
def expectChar (c : Char) : List Char → Option (List Char)
  | [] => none
  | x :: xs => if x = c then some xs else none

/-- `datetime.fromisoformat` restricted to the grammar `isoformat`
produces (which it inverts); any other input raises, modelled `none`. -/
def parseIso (cs : List Char) : Option PyDateTime := do
  let (y, cs) ← parseFixed 4 cs 0
  let cs ← expectChar '-' cs
  let (mo, cs) ← parseFixed 2 cs 0
  let cs ← expectChar '-' cs
  let (d, cs) ← parseFixed 2 cs 0
  let cs ← expectChar 'T' cs
  let (h, cs) ← parseFixed 2 cs 0
  let cs ← expectChar ':' cs
  let (mi, cs) ← parseFixed 2 cs 0
  let cs ← expectChar ':' cs
  let (s, cs) ← parseFixed 2 cs 0
  match cs with
  | [] => pure ⟨y, mo, d, h, mi, s, 0⟩
  | '.' :: cs2 =>
      match parseFixed 6 cs2 0 with
      | some (us, []) => pure ⟨y, mo, d, h, mi, s, us⟩
      | _ => none
  | _ => none

/-- `datetime.fromisoformat` on a string. -/
def fromisoformat (s : String) : Option PyDateTime := parseIso s.data

theorem expectChar_cons (c : Char) (cs : List Char) :
    expectChar c (c :: cs) = some cs := by
  simp [expectChar]

set_option maxHeartbeats 4000000 in
/-- `fromisoformat` inverts `isoformat` on every valid datetime. -/
theorem parseIso_isoChars (t : PyDateTime) (h : t.valid) :
    parseIso (isoChars t) = some t := by
  obtain ⟨y, mo, d, hr, mi, sec, us⟩ := t
  simp only [PyDateTime.valid] at h
  obtain ⟨hy1, hy2, hm1, hm2, hd1, hd2, hh, hmi, hs, hus⟩ := h
  have Py : ∀ rest, parseFixed 4 (padChars 4 y ++ rest) 0 = some (y, rest) :=
    fun rest => parseFixed_padChars 4 y rest (by omega) (by omega)
  have Pmo : ∀ rest, parseFixed 2 (padChars 2 mo ++ rest) 0 = some (mo, rest) :=
    fun rest => parseFixed_padChars 2 mo rest (by omega) (by omega)
  have Pd : ∀ rest, parseFixed 2 (padChars 2 d ++ rest) 0 = some (d, rest) :=
    fun rest => parseFixed_padChars 2 d rest (by omega) (by omega)
  have Ph : ∀ rest, parseFixed 2 (padChars 2 hr ++ rest) 0 = some (hr, rest) :=
    fun rest => parseFixed_padChars 2 hr rest (by omega) (by omega)
  have Pmi : ∀ rest, parseFixed 2 (padChars 2 mi ++ rest) 0 = some (mi, rest) :=
    fun rest => parseFixed_padChars 2 mi rest (by omega) (by omega)
  have Ps : ∀ rest, parseFixed 2 (padChars 2 sec ++ rest) 0 = some (sec, rest) :=
    fun rest => parseFixed_padChars 2 sec rest (by omega) (by omega)
  have Ps0 : parseFixed 2 (padChars 2 sec) 0 = some (sec, []) := by
    have := Ps []
    simpa using this
  have Pus0 : parseFixed 6 (padChars 6 us) 0 = some (us, []) := by
    have := parseFixed_padChars 6 us [] (by omega) (by omega)
    simpa using this
  by_cases h0 : us = 0
  · subst h0
    simp only [parseIso, isoChars, reduceIte, List.append_nil, Py, Pmo, Pd,
      Ph, Pmi, Ps, Ps0, expectChar_cons, Option.bind_eq_bind, Option.some_bind]
    rfl
  · simp only [parseIso, isoChars, if_neg h0, Py, Pmo, Pd, Ph, Pmi, Ps,
      Pus0, expectChar_cons, Option.bind_eq_bind, Option.some_bind]
    rfl

theorem fromisoformat_isoformat (t : PyDateTime) (h : t.valid) :
    fromisoformat (isoformat t) = some t :=
  parseIso_isoChars t h

/-! ## The `Task` dataclass and registry persistence

`Task` mirrors the dataclass of `core.py` field for field.  `__post_init__`
replaces a `None` `created_time` by `datetime.now()`, so every constructed
record has it set; the embedding therefore types it as a plain datetime.
`_save_tasks` serializes each record with `asdict`, mapping the time fields
through `isoformat` when set; `_load_tasks` maps them back through
`fromisoformat`.  All other fields cross the JSON layer unchanged. -/

/-- The `Task` dataclass of `core.py`. -/
structure Task where
  id : String
  name : String
  command : String
  tmux_session : String
  status : String
  priority : Int
  max_retries : Int
  retry_count : Int
  created_time : PyDateTime
  start_time : Option PyDateTime
  end_time : Option PyDateTime
  pid : Option Int
  exit_code : Option Int
  error_message : Option String
  deriving DecidableEq, Repr

/-- A task record as stored in `tasks.json`: time fields in their
ISO-8601 textual form, everything else verbatim. -/
structure JTask where
  id : String
  name : String
  command : String
  tmux_session : String
  status : String
  priority : Int
  max_retries : Int
  retry_count : Int
  created_time : String
  start_time : Option String
  end_time : Option String
  pid : Option Int
  exit_code : Option Int
  error_message : Option String
  deriving DecidableEq, Repr

/-- One record of the `_save_tasks` loop: `asdict(task)` with each set
time field replaced by its `isoformat` string. -/
def Task.serialize (t : Task) : JTask :=
  { id := t.id, name := t.name, command := t.command,
    tmux_session := t.tmux_session, status := t.status,
    priority := t.priority, max_retries := t.max_retries,
    retry_count := t.retry_count,
    created_time := isoformat t.created_time,
    start_time := t.start_time.map isoformat,
    end_time := t.end_time.map isoformat,
    pid := t.pid, exit_code := t.exit_code,
    error_message := t.error_message }

/-- `Task(**task_data)` after the time fields have been converted. -/
def JTask.rebuild (j : JTask) (ct : PyDateTime) (st et : Option PyDateTime) : Task :=
  { id := j.id, name := j.name, command := j.command,
    tmux_session := j.tmux_session, status := j.status,
    priority := j.priority, max_retries := j.max_retries,
    retry_count := j.retry_count, created_time := ct,
    start_time := st, end_time := et, pid := j.pid,
    exit_code := j.exit_code, error_message := j.error_message }

/-- One record of the `_load_tasks` loop: set time fields are mapped
through `fromisoformat` (whose failure raises, modelled `none`), then the
record is rebuilt with `Task(**task_data)`. -/
def JTask.deserialize (j : JTask) : Option Task := do
  let ct ← fromisoformat j.created_time
  let st ← match j.start_time with
    | none => some none
    | some s => (fromisoformat s).map some
  let et ← match j.end_time with
    | none => some none
    | some s => (fromisoformat s).map some
  pure (j.rebuild ct st et)

/-- The registry is a JSON object keyed by task id; order preserved. -/
def saveTasksData (reg : List (String × Task)) : List (String × JTask) :=
  reg.map fun p => (p.1, p.2.serialize)

/-- Rebuilding the in-memory registry from the stored object; the first
record whose times fail to parse raises, modelled `none`. -/
def loadTasksData (data : List (String × JTask)) : Option (List (String × Task)) :=
  data.mapM fun p => (p.2.deserialize).map fun t => (p.1, t)

/-- All time fields of a record are valid datetimes (true of every record
the manager builds, since they come from `datetime.now()`). -/
def Task.timesValid (t : Task) : Prop :=
  t.created_time.valid ∧ (∀ u ∈ t.start_time, u.valid) ∧ (∀ u ∈ t.end_time, u.valid)

instance (t : Task) : Decidable t.timesValid := by
  unfold Task.timesValid
  infer_instance

theorem Task.deserialize_serialize (t : Task) (h : t.timesValid) :
    t.serialize.deserialize = some t := by
  obtain ⟨tid, tn, tc, tsess, tst, tp, tmr, trc, tct, tstart, tend, tpid, tec, tem⟩ := t
  simp only [Task.timesValid] at h
  obtain ⟨hc, hst, het⟩ := h
  cases tstart with
  | none =>
    cases tend with
    | none =>
      simp only [Task.serialize, JTask.deserialize, JTask.rebuild,
        fromisoformat_isoformat tct hc, Option.map_none',
        Option.bind_eq_bind, Option.some_bind]
      rfl
    | some u =>
      have hu : u.valid := het u rfl
      simp only [Task.serialize, JTask.deserialize, JTask.rebuild,
        fromisoformat_isoformat tct hc, fromisoformat_isoformat u hu,
        Option.map_none', Option.map_some', Option.bind_eq_bind,
        Option.some_bind]
      rfl
  | some v =>
    have hv : v.valid := hst v rfl
    cases tend with
    | none =>
      simp only [Task.serialize, JTask.deserialize, JTask.rebuild,
        fromisoformat_isoformat tct hc, fromisoformat_isoformat v hv,
        Option.map_none', Option.map_some', Option.bind_eq_bind,
        Option.some_bind]
      rfl
    | some u =>
      have hu : u.valid := het u rfl
      simp only [Task.serialize, JTask.deserialize, JTask.rebuild,
        fromisoformat_isoformat tct hc, fromisoformat_isoformat v hv,
        fromisoformat_isoformat u hu, Option.map_some',
        Option.bind_eq_bind, Option.some_bind]
      rfl

/-- Saving and reloading a registry is the identity, record for record. -/
theorem loadTasksData_saveTasksData (reg : List (String × Task))
    (h : ∀ p ∈ reg, p.2.timesValid) :
    loadTasksData (saveTasksData reg) = some reg := by
  induction reg with
  | nil => rfl
  | cons p ps ih =>
    have hp : p.2.timesValid := h p (List.mem_cons_self p ps)
    have hps := ih fun q hq => h q (List.mem_cons_of_mem p hq)
    simp only [saveTasksData, List.map_cons, loadTasksData, List.mapM_cons]
    rw [Task.deserialize_serialize p.2 hp]
    simp only [saveTasksData, loadTasksData] at hps
    rw [show (ps.map fun p => (p.1, p.2.serialize)).mapM
          (fun p => (p.2.deserialize).map fun t => (p.1, t)) = some ps from hps]
    simp

/-! ## The registry file (`_load_tasks` error handling)

`_load_tasks` returns `{}` when `tasks.json` does not exist, and catches
every exception of the read/parse/rebuild block, logging a warning and
returning `{}`. -/

/-- What `_load_tasks` finds on disk: no file, a file whose open or
`json.load` raises, or a well-formed JSON object of task records. -/
inductive RegistryFile where
  | missing
  | unreadable
  | parsed (data : List (String × JTask))
  deriving DecidableEq

/-- `TaskManager._load_tasks`. -/
def load_tasks : RegistryFile → List (String × Task)
  | .missing => []
  | .unreadable => []
  | .parsed data => (loadTasksData data).getD []

/-! ## Manager state and external environment

The mutable world of one `TaskManager`: the in-memory registry (a Python
dict, modelled as an insertion-ordered association list with distinct
keys), the files of the logs directory (name and content; every entry the
manager creates is a regular file), the snapshot held by `tasks.json`
(`_save_tasks` rewrites it from the registry), the id counter, and the
stream of notification events handed to the email collaborator.

External tmux/filesystem outcomes and `datetime.now()` are supplied by an
`Env` record; a non-zero tmux exit status is a `false`/non-zero field. -/

/-- A file of the logs directory. -/
structure LogFile where
  name : String
  content : String
  deriving DecidableEq, Repr

/-- The manager's world. -/
structure MState where
  tasks : List (String × Task)
  logs : List LogFile
  saved : List (String × Task)
  next_task_id : Nat
  sent_emails : List (String × String)
  deriving DecidableEq, Repr

/-- Outcomes of the external calls made during one operation. -/
structure Env where
  now : PyDateTime
  create_ret : Int
  create_stderr : String
  has_session : Bool
  pid_ok : Bool
  pid : Int
  capture_ok : Bool
  capture_out : String
  enum_fail : String → Bool

/-- Python dict lookup on the registry. -/
def lookupTask : List (String × Task) → String → Option Task
  | [], _ => none
  | p :: ps, i => if p.1 = i then some p.2 else lookupTask ps i

/-- `task_id in self.tasks`. -/
def hasTask (reg : List (String × Task)) (i : String) : Bool :=
  (lookupTask reg i).isSome

/-- In-place mutation of the record stored under a key. -/
def updateTask (reg : List (String × Task)) (i : String) (f : Task → Task) :
    List (String × Task) :=
  reg.map fun p => if p.1 = i then (p.1, f p.2) else p

/-- `del self.tasks[task_id]`. -/
def removeTask (reg : List (String × Task)) (i : String) : List (String × Task) :=
  reg.filter fun p => !(p.1 == i)

/-- The keys of the registry, in insertion order. -/
def regKeys (reg : List (String × Task)) : List String := reg.map (·.1)

/-- The name test of `logs_dir.glob(f"id*")`: does `t` begin with `p`?
(Character-level prefix, structurally computable.) -/
def strPrefix (p t : String) : Bool := p.data.isPrefixOf t.data

/-- `TaskManager._save_tasks`: rewrite `tasks.json` from the registry. -/
def save_tasks (s : MState) : MState := { s with saved := s.tasks }

/-- `f"{n:05d}"`. -/
def pad5 (n : Nat) : String := ⟨padChars 5 n⟩

/-! ## `create_task` -/

/-- The id-search loop of `create_task`: starting at counter value `n`,
skip a candidate when it is a registry key, when enumerating
`logs_dir.glob(f"id*")` raises (conservatively treated as a collision),
or when some log file has it as a name prefix; otherwise take it.  The
Python loop is unbounded; `fuel` bounds the embedding, `none` standing
for non-termination. -/
def allocLoop (env : Env) (reg : List (String × Task)) (logs : List LogFile) :
    Nat → Nat → Option Nat
  | 0, _ => none
  | fuel + 1, n =>
      let candidate := pad5 n
      if hasTask reg candidate then allocLoop env reg logs fuel (n + 1)
      else if env.enum_fail candidate then allocLoop env reg logs fuel (n + 1)
      else if logs.any (fun f => strPrefix candidate f.name) then
        allocLoop env reg logs fuel (n + 1)
      else some n

/-- The fresh `Task` built by `create_task` (dataclass defaults plus
`__post_init__` filling `created_time` with `datetime.now()`). -/
def newTask (env : Env) (task_id nm cmd : String) (priority max_retries : Int) : Task :=
  { id := task_id, name := nm, command := cmd,
    tmux_session := "task_" ++ task_id, status := "pending",
    priority := priority, max_retries := max_retries, retry_count := 0,
    created_time := env.now, start_time := none, end_time := none,
    pid := none, exit_code := none, error_message := none }

/-- `TaskManager.create_task`.  After the loop has already advanced the
counter past the chosen id, the body advances it once more, so the
counter ends two past the allocated value. -/
def create_task (env : Env) (fuel : Nat) (s : MState) (nm cmd : String)
    (priority max_retries : Int) : Option (String × MState) :=
  match allocLoop env s.tasks s.logs fuel s.next_task_id with
  | none => none
  | some n =>
      let task_id := pad5 n
      let task := newTask env task_id nm cmd priority max_retries
      some (task_id, save_tasks { s with
        tasks := s.tasks ++ [(task_id, task)],
        next_task_id := n + 2 })

/-! ## `start_task` -/

/-- The header block `start_task` writes into `<id>.log`. -/
def logHeader (now : PyDateTime) (t : Task) : String :=
  "[" ++ isoformat now ++ "] Task started: " ++ t.name ++ "\n" ++
  "[" ++ isoformat now ++ "] Command: " ++ t.command ++ "\n" ++
  "[" ++ isoformat now ++ "] Tmux session: " ++ t.tmux_session ++ "\n" ++
  String.mk (List.replicate 80 '=') ++ "\n"

/-- Create or truncate the log file of a task with its header. -/
def writeLog (logs : List LogFile) (nm content : String) : List LogFile :=
  if logs.any (fun f => f.name == nm) then
    logs.map fun f => if f.name == nm then { f with content := content } else f
  else logs ++ [⟨nm, content⟩]

/-- `TaskManager.start_task`.  The returned list records, in order, every
value assigned to the task's `status` field during the call.  The
`realtime` flag only changes the command text sent into the session
(an external effect), never the state.  The submitted command is the
job followed by the `_send_email` trigger and a session teardown; those
run later inside tmux and are separate operations here. -/
def start_task (env : Env) (s : MState) (task_id : String) (realtime : Bool) :
    Bool × MState × List String :=
  match lookupTask s.tasks task_id with
  | none => (false, s, [])
  | some task =>
    if task.status ≠ "pending" then (false, s, [])
    else if env.create_ret ≠ 0 then
      (false, save_tasks { s with
        tasks := updateTask s.tasks task_id fun t =>
          { t with status := "failed", error_message := some env.create_stderr } },
       ["failed"])
    else
      let _ := realtime
      (true, save_tasks { s with
        logs := writeLog s.logs (task_id ++ ".log") (logHeader env.now task),
        tasks := updateTask s.tasks task_id fun t =>
          { t with status := "running", start_time := some env.now, pid := if env.pid_ok then some env.pid else t.pid } },
       ["running"])

/-! ## `get_task_status`, `stop_task` -/

/-- `TaskManager.get_task_status`: reconcile a `running` task against
`tmux has-session`, then return a snapshot of the record.  A terminal
transition persists and appends one notification event. -/
def get_task_status (env : Env) (s : MState) (task_id : String) :
    Option Task × MState :=
  match lookupTask s.tasks task_id with
  | none => (none, s)
  | some task =>
    if task.status = "running" ∧ env.has_session = false then
      let t := { task with status := "completed", end_time := some env.now }
      let s := save_tasks { s with tasks := updateTask s.tasks task_id fun _ => t }
      (some t, { s with sent_emails := s.sent_emails ++ [(task_id, "completed")] })
    else (some task, s)

/-- `TaskManager.stop_task`: legal from `running` or `pending`; forced
teardown yields `killed`, a graceful interrupt yields `completed`;
`end_time` is set, the registry persisted, one notification fired. -/
def stop_task (env : Env) (s : MState) (task_id : String) (force : Bool) :
    Bool × MState :=
  match lookupTask s.tasks task_id with
  | none => (false, s)
  | some task =>
    if task.status ≠ "running" ∧ task.status ≠ "pending" then (false, s)
    else
      let newStatus := if force then "killed" else "completed"
      let t := { task with status := newStatus, end_time := some env.now }
      let s := save_tasks { s with tasks := updateTask s.tasks task_id fun _ => t }
      (true, { s with sent_emails := s.sent_emails ++ [(task_id, newStatus)] })

/-! ## `cleanup_task`, `cleanup_old_tasks`, `get_tmux_output` -/

/-- `TaskManager.cleanup_task`: for a known id, best-effort session kill
(external), deletion of every log file whose name starts with the id,
removal from the registry, persist, `True`; unknown id reports `False`.
The source swallows per-file unlink errors; the embedding models the
path on which deletion succeeds. -/
def cleanup_task (s : MState) (task_id : String) : Bool × MState :=
  if hasTask s.tasks task_id then
    (true, save_tasks { s with
      logs := s.logs.filter fun f => !(strPrefix task_id f.name),
      tasks := removeTask s.tasks task_id })
  else (false, s)

/-- `datetime.toordinal()`: proleptic Gregorian day number. -/
def isLeap (y : Nat) : Bool := y % 4 = 0 && (y % 100 ≠ 0 || y % 400 = 0)

/-- Days in months before month `m`. -/
def daysBeforeMonth (m : Nat) (leap : Bool) : Nat :=
  let base := [0, 0, 31, 59, 90, 120, 151, 181, 212, 243, 273, 304, 334]
  (base.getD m 0) + (if leap && m ≥ 3 then 1 else 0)

/-- Microseconds of a datetime since the proleptic epoch, as `timedelta`
subtraction measures it. -/
def dtTotalMicros (t : PyDateTime) : Int :=
  let y := t.year - 1
  let ordinal := 365 * y + y / 4 - y / 100 + y / 400
    + daysBeforeMonth t.month (isLeap t.year) + t.day
  ((ordinal : Int) * 86400 + (t.hour : Int) * 3600 + (t.minute : Int) * 60
    + (t.second : Int)) * 1000000 + (t.microsecond : Int)

/-- The sweep test of `cleanup_old_tasks`: terminal status and an
`end_time` older than the threshold.  The float division of the source is
modelled by the exact comparison. -/
def oldPred (env : Env) (max_age_hours : Int) (p : String × Task) : Bool :=
  (p.2.status == "completed" || p.2.status == "failed" || p.2.status == "killed")
  && (match p.2.end_time with
      | none => false
      | some et =>
        decide (dtTotalMicros env.now - dtTotalMicros et > max_age_hours * 3600000000))

/-- `TaskManager.cleanup_old_tasks`: sweep terminal tasks with an
`end_time` older than the threshold through `cleanup_task`. -/
def cleanup_old_tasks (env : Env) (s : MState) (max_age_hours : Int) : MState :=
  let old := s.tasks.filter (oldPred env max_age_hours)
  (old.map (·.1)).foldl (fun st i => (cleanup_task st i).2) s

/-- `'\n'.join(text.split('\n')[-lines:])` for a positive `lines`. -/
def lastLines (lines : Nat) (text : String) : String :=
  let ls := text.split (· = '\n')
  String.intercalate "\n" (ls.drop (ls.length - lines))

/-- `TaskManager.get_tmux_output`: prefer live pane capture; if the
session is gone, fall back to the tail of the log file. -/
def get_tmux_output (env : Env) (s : MState) (task_id : String) (lines : Int) : String :=
  match lookupTask s.tasks task_id with
  | none => "Task " ++ task_id ++ " not found"
  | some _ =>
    if env.capture_ok then
      if lines > 0 then lastLines lines.toNat env.capture_out else env.capture_out
    else
      match s.logs.find? (fun f => f.name == task_id ++ ".log") with
      | some f => if lines > 0 then lastLines lines.toNat f.content else f.content
      | none => "No output available for task " ++ task_id

/-! ## The `_send_email` CLI entry point

`cmd_send_email` of `cli.py` (run inside the tmux session right after the
job command, but invocable like any other subcommand): for a known id it
unconditionally sets `status = "completed"` and `end_time = now()`,
persists, and fires the completion notification. -/

/-- `cli.cmd_send_email` for a present task-id argument. -/
def cmd_send_email (env : Env) (s : MState) (task_id : String) : MState :=
  match lookupTask s.tasks task_id with
  | none => s
  | some task =>
    let t := { task with status := "completed", end_time := some env.now }
    let s := save_tasks { s with tasks := updateTask s.tasks task_id fun _ => t }
    { s with sent_emails := s.sent_emails ++ [(task_id, "completed")] }

/-! ## Registry lemmas -/

theorem updateTask_cons_self (p : String × Task) (ps : List (String × Task))
    (i : String) (f : Task → Task) (hp : p.1 = i) :
    updateTask (p :: ps) i f = (p.1, f p.2) :: updateTask ps i f := by
  simp [updateTask, hp]

theorem updateTask_cons_ne (p : String × Task) (ps : List (String × Task))
    (i : String) (f : Task → Task) (hp : ¬ p.1 = i) :
    updateTask (p :: ps) i f = p :: updateTask ps i f := by
  simp [updateTask, hp]

theorem lookupTask_updateTask_self (reg : List (String × Task)) (i : String)
    (f : Task → Task) :
    lookupTask (updateTask reg i f) i = (lookupTask reg i).map f := by
  induction reg with
  | nil => rfl
  | cons p ps ih =>
    by_cases hp : p.1 = i
    · rw [updateTask_cons_self p ps i f hp]
      simp [lookupTask, hp]
    · rw [updateTask_cons_ne p ps i f hp]
      simp only [lookupTask, if_neg hp]
      exact ih

theorem lookupTask_updateTask_ne (reg : List (String × Task)) (i j : String)
    (f : Task → Task) (hij : j ≠ i) :
    lookupTask (updateTask reg i f) j = lookupTask reg j := by
  induction reg with
  | nil => rfl
  | cons p ps ih =>
    by_cases hp : p.1 = i
    · have hpj : ¬ p.1 = j := by rw [hp]; exact fun h => hij h.symm
      rw [updateTask_cons_self p ps i f hp]
      simp only [lookupTask, if_neg hpj]
      exact ih
    · rw [updateTask_cons_ne p ps i f hp]
      by_cases hq : p.1 = j
      · simp [lookupTask, hq]
      · simp only [lookupTask, if_neg hq]
        exact ih

theorem removeTask_cons (p : String × Task) (ps : List (String × Task))
    (i : String) :
    removeTask (p :: ps) i
      = if p.1 = i then removeTask ps i else p :: removeTask ps i := by
  by_cases hp : p.1 = i
  · simp [removeTask, hp]
  · simp [removeTask, hp]

theorem lookupTask_removeTask_self (reg : List (String × Task)) (i : String) :
    lookupTask (removeTask reg i) i = none := by
  induction reg with
  | nil => rfl
  | cons p ps ih =>
    rw [removeTask_cons]
    by_cases hp : p.1 = i
    · rw [if_pos hp]
      exact ih
    · rw [if_neg hp]
      simp only [lookupTask, if_neg hp]
      exact ih

theorem lookupTask_eq_none_iff (reg : List (String × Task)) (i : String) :
    lookupTask reg i = none ↔ i ∉ regKeys reg := by
  induction reg with
  | nil => simp [lookupTask, regKeys]
  | cons p ps ih =>
    by_cases hp : p.1 = i
    · simp [lookupTask, hp, regKeys]
    · simp only [lookupTask, if_neg hp, regKeys, List.map_cons, List.mem_cons]
      rw [ih]
      constructor
      · intro h hm
        rcases hm with h1 | h2
        · exact hp h1.symm
        · exact h (by simpa [regKeys] using h2)
      · intro h hm
        exact h (Or.inr (by simpa [regKeys] using hm))

/-! ## Concrete fixtures used by witnesses -/

/-- A benign environment: session opens, stays alive, capture works. -/
def env0 : Env :=
  { now := ⟨2024, 5, 6, 7, 8, 9, 0⟩, create_ret := 0, create_stderr := "",
    has_session := true, pid_ok := false, pid := 0, capture_ok := true,
    capture_out := "", enum_fail := fun _ => false }

/-- The state of a freshly constructed manager with no prior data. -/
def s0 : MState := ⟨[], [], [], 1, []⟩

/-- A just-created task, as `create_task` builds it. -/
def taskPending : Task := newTask env0 "00001" "build" "make all" 0 0

def sPending : MState :=
  ⟨[("00001", taskPending)], [], [("00001", taskPending)], 3, []⟩

def taskRunning : Task :=
  { taskPending with status := "running", start_time := some env0.now }

def sRunning : MState :=
  ⟨[("00001", taskRunning)], [⟨"00001.log", logHeader env0.now taskPending⟩],
    [("00001", taskRunning)], 3, []⟩

def taskFailed : Task :=
  { taskPending with status := "failed", error_message := some "boom" }

def sFailed : MState :=
  ⟨[("00001", taskFailed)], [], [("00001", taskFailed)], 3, []⟩

/-- Environment in which `tmux new-session` fails. -/
def envFail : Env :=
  { env0 with create_ret := 1, create_stderr := "error connecting to /tmp/tmux-0/default" }

/-- Environment in which the task's session no longer exists. -/
def envGone : Env := { env0 with has_session := false }

/-- `taskPending` after the failing start of `envFail`. -/
def taskFailedStart : Task :=
  { taskPending with status := "failed", error_message := some envFail.create_stderr }

/-- `taskRunning` after reconciliation under `envGone`. -/
def taskDone : Task :=
  { taskRunning with status := "completed", end_time := some envGone.now }

/-! ## Claim C10 -/

/-- C10: for an id absent from the registry, `start_task` returns `False`,
`stop_task` returns `False`, `get_task_status` returns `None`, and the
whole state — in-memory registry and persisted snapshot alike — is left
unchanged. -/
theorem unknown_id_pure_failure (env env' env'' : Env) (s : MState) (i : String)
    (rt force : Bool) (h : lookupTask s.tasks i = none) :
    start_task env s i rt = (false, s, []) ∧
    stop_task env' s i force = (false, s) ∧
    get_task_status env'' s i = (none, s) := by
  refine ⟨?_, ?_, ?_⟩ <;> simp [start_task, stop_task, get_task_status, h]

theorem unknown_id_pure_failure_witness :
    start_task env0 sPending "00042" false = (false, sPending, []) ∧
    stop_task env0 sPending "00042" true = (false, sPending) ∧
    get_task_status env0 sPending "00042" = (none, sPending) :=
  unknown_id_pure_failure env0 env0 env0 sPending "00042" false true rfl

/-! ## Claim C5 -/

/-- C5: starting a `pending` task whose session fails to open (non-zero
result from `tmux new-session`) moves it straight to `failed` with the
tool's stderr as `error_message`, persists the registry, reports failure,
and at no point of the call assigns the `running` status. -/
theorem start_task_session_fail_to_failed (env : Env) (s : MState) (i : String)
    (t : Task) (rt : Bool) (hfind : lookupTask s.tasks i = some t)
    (hpend : t.status = "pending") (hret : env.create_ret ≠ 0) :
    (start_task env s i rt).1 = false ∧
    lookupTask (start_task env s i rt).2.1.tasks i
      = some { t with status := "failed", error_message := some env.create_stderr } ∧
    (start_task env s i rt).2.1.saved = (start_task env s i rt).2.1.tasks ∧
    "running" ∉ (start_task env s i rt).2.2 ∧
    (start_task env s i rt).2.2 = ["failed"] := by
  have hnp : ¬ t.status ≠ "pending" := by rw [hpend]; simp
  simp [start_task, hfind, hnp, hret, save_tasks, lookupTask_updateTask_self]

theorem start_task_session_fail_to_failed_witness :
    (start_task envFail sPending "00001" false).1 = false ∧
    lookupTask (start_task envFail sPending "00001" false).2.1.tasks "00001"
      = some taskFailedStart ∧
    (start_task envFail sPending "00001" false).2.1.saved
      = (start_task envFail sPending "00001" false).2.1.tasks ∧
    "running" ∉ (start_task envFail sPending "00001" false).2.2 ∧
    (start_task envFail sPending "00001" false).2.2 = ["failed"] :=
  start_task_session_fail_to_failed envFail sPending "00001" taskPending false
    rfl rfl (by decide)

/-! ## Claim C6 -/

/-- C6: the first `get_task_status` on a `running` task whose session has
closed moves it to `completed`, sets `end_time`, persists, and fires one
notification; any further `get_task_status` call returns the very same
record and changes nothing — no new `end_time`, no second notification. -/
theorem get_task_status_reconcile_idempotent (env env' : Env) (s : MState)
    (i : String) (t : Task) (hfind : lookupTask s.tasks i = some t)
    (hrun : t.status = "running") (hgone : env.has_session = false) :
    (get_task_status env s i).1
      = some { t with status := "completed", end_time := some env.now } ∧
    lookupTask (get_task_status env s i).2.tasks i
      = some { t with status := "completed", end_time := some env.now } ∧
    (get_task_status env s i).2.sent_emails
      = s.sent_emails ++ [(i, "completed")] ∧
    (get_task_status env s i).2.saved = (get_task_status env s i).2.tasks ∧
    get_task_status env' (get_task_status env s i).2 i
      = ((get_task_status env s i).1, (get_task_status env s i).2) := by
  have h1 : (get_task_status env s i).1
      = some { t with status := "completed", end_time := some env.now } := by
    simp [get_task_status, hfind, hrun, hgone]
  have h2 : lookupTask (get_task_status env s i).2.tasks i
      = some { t with status := "completed", end_time := some env.now } := by
    simp [get_task_status, hfind, hrun, hgone, save_tasks,
      lookupTask_updateTask_self]
  refine ⟨h1, h2, ?_, ?_, ?_⟩
  · simp [get_task_status, hfind, hrun, hgone, save_tasks]
  · simp [get_task_status, hfind, hrun, hgone, save_tasks, updateTask]
  · rw [get_task_status, h2]
    simp [h1]

theorem get_task_status_reconcile_idempotent_witness :
    (get_task_status envGone sRunning "00001").1
      = some taskDone ∧
    lookupTask (get_task_status envGone sRunning "00001").2.tasks "00001"
      = some taskDone ∧
    (get_task_status envGone sRunning "00001").2.sent_emails
      = sRunning.sent_emails ++ [("00001", "completed")] ∧
    (get_task_status envGone sRunning "00001").2.saved
      = (get_task_status envGone sRunning "00001").2.tasks ∧
    get_task_status env0 (get_task_status envGone sRunning "00001").2 "00001"
      = ((get_task_status envGone sRunning "00001").1,
        (get_task_status envGone sRunning "00001").2) :=
  get_task_status_reconcile_idempotent envGone env0 sRunning "00001"
    taskRunning rfl rfl rfl

/-! ## Claim C8 -/

/-- C8: cleaning up a registered id removes it from the registry, deletes
exactly the log files whose name the id prefixes, persists, and returns
success; cleaning up an unknown id returns failure and changes nothing. -/
theorem cleanup_task_removes_all_and_reports (s : MState) (i : String) :
    (hasTask s.tasks i = true →
      (cleanup_task s i).1 = true ∧
      lookupTask (cleanup_task s i).2.tasks i = none ∧
      (cleanup_task s i).2.logs
        = s.logs.filter (fun f => !(strPrefix i f.name)) ∧
      (∀ f ∈ (cleanup_task s i).2.logs, strPrefix i f.name = false) ∧
      (cleanup_task s i).2.saved = (cleanup_task s i).2.tasks) ∧
    (hasTask s.tasks i = false → cleanup_task s i = (false, s)) := by
  constructor
  · intro h
    refine ⟨by simp [cleanup_task, h], ?_, by simp [cleanup_task, h, save_tasks], ?_, ?_⟩
    · simp [cleanup_task, h, save_tasks, lookupTask_removeTask_self]
    · intro f hf
      simp only [cleanup_task, h, if_true, save_tasks] at hf
      have := List.of_mem_filter hf
      simpa using this
    · simp [cleanup_task, h, save_tasks]
  · intro h
    simp [cleanup_task, h]

theorem cleanup_task_removes_all_and_reports_witness :
    ((cleanup_task sRunning "00001").1 = true ∧
      lookupTask (cleanup_task sRunning "00001").2.tasks "00001" = none ∧
      (cleanup_task sRunning "00001").2.logs
        = sRunning.logs.filter (fun f => !(strPrefix "00001" f.name)) ∧
      (∀ f ∈ (cleanup_task sRunning "00001").2.logs,
        strPrefix "00001" f.name = false) ∧
      (cleanup_task sRunning "00001").2.saved
        = (cleanup_task sRunning "00001").2.tasks) ∧
    cleanup_task sPending "00099" = (false, sPending) :=
  ⟨(cleanup_task_removes_all_and_reports sRunning "00001").1 rfl,
    (cleanup_task_removes_all_and_reports sPending "00099").2 rfl⟩

/-! ## Claim C3 -/

/-- C3: `_save_tasks` followed by `_load_tasks` reproduces the registry
field for field, timestamps at full precision, unset optional fields
coming back unset. -/
theorem save_then_load_roundtrip (reg : List (String × Task))
    (h : ∀ p ∈ reg, p.2.timesValid) :
    load_tasks (.parsed (saveTasksData reg)) = reg := by
  simp [load_tasks, loadTasksData_saveTasksData reg h]

/-- A record exercising sub-second precision and a mix of set and unset
optional timestamps. -/
def taskMicro : Task :=
  { taskPending with created_time := ⟨2023, 12, 31, 23, 59, 58, 123456⟩, start_time := some ⟨2024, 1, 1, 0, 0, 0, 999999⟩ }

theorem save_then_load_roundtrip_witness :
    load_tasks (.parsed (saveTasksData [("00001", taskRunning), ("00002", taskMicro)]))
      = [("00001", taskRunning), ("00002", taskMicro)] :=
  save_then_load_roundtrip [("00001", taskRunning), ("00002", taskMicro)] (by decide)

/-! ## Claim C7 -/

/-- C7: `_load_tasks` returns an empty registry when the file is missing
or unreadable, and when the stored records fail to parse back it warns
and returns an empty registry instead of raising. -/
theorem load_tasks_missing_or_corrupt_empty :
    load_tasks .missing = [] ∧ load_tasks .unreadable = [] ∧
    ∀ data, loadTasksData data = none → load_tasks (.parsed data) = [] := by
  refine ⟨rfl, rfl, ?_⟩
  intro data h
  simp [load_tasks, h]

/-- A stored record whose `created_time` text does not parse. -/
def jCorrupt : JTask :=
  { taskPending.serialize with created_time := "not-a-timestamp" }

theorem load_tasks_missing_or_corrupt_empty_witness :
    loadTasksData [("00001", jCorrupt)] = none ∧
    load_tasks (.parsed [("00001", jCorrupt)]) = [] :=
  ⟨rfl, load_tasks_missing_or_corrupt_empty.2.2 [("00001", jCorrupt)] rfl⟩

/-! ## Claim C1

The spec's monotonic-state-machine invariant fails on the code: the
`_send_email` CLI entry point sets `status = "completed"` without
checking the current status, so invoking it on a task already in the
terminal `failed` (or `killed`) state moves that task to `completed`.
The core operations guard their transitions, `cmd_send_email` does not —
the one unguarded write contradicting §4.3/§8 of the spec. -/

/-- C1 (code bug): `_send_email` on the terminal task of `sFailed`
rewrites its status to `completed` and fires a fresh notification: the
task leaves a terminal state. -/
theorem cmd_send_email_overwrites_terminal :
    (lookupTask sFailed.tasks "00001").map Task.status = some "failed" ∧
    (lookupTask (cmd_send_email env0 sFailed "00001").tasks "00001").map Task.status
      = some "completed" ∧
    (cmd_send_email env0 sFailed "00001").sent_emails = [("00001", "completed")] :=
  ⟨rfl, rfl, rfl⟩

/-! ## The id allocator: specification of the search loop -/

/-- A counter value the loop refuses: registry hit, enumeration failure,
or a log file carrying the candidate as a name prefix. -/
def blockedAt (env : Env) (reg : List (String × Task)) (logs : List LogFile)
    (m : Nat) : Prop :=
  hasTask reg (pad5 m) = true ∨ env.enum_fail (pad5 m) = true ∨
    (logs.any fun f => strPrefix (pad5 m) f.name) = true

theorem allocLoop_some (env : Env) (reg : List (String × Task))
    (logs : List LogFile) :
    ∀ fuel start n, allocLoop env reg logs fuel start = some n →
      start ≤ n ∧
      hasTask reg (pad5 n) = false ∧
      env.enum_fail (pad5 n) = false ∧
      (logs.any fun f => strPrefix (pad5 n) f.name) = false ∧
      (∀ m, start ≤ m → m < n → blockedAt env reg logs m) := by
  intro fuel
  induction fuel with
  | zero =>
    intro start n h
    exact absurd h (by simp [allocLoop])
  | succ fuel ih =>
    intro start n h
    simp only [allocLoop] at h
    by_cases h1 : hasTask reg (pad5 start) = true
    · rw [if_pos h1] at h
      obtain ⟨hle, ha, hb, hc, hmin⟩ := ih (start + 1) n h
      refine ⟨by omega, ha, hb, hc, ?_⟩
      intro m hm1 hm2
      rcases Nat.eq_or_lt_of_le hm1 with he | hlt
      · exact Or.inl (he ▸ h1)
      · exact hmin m (by omega) hm2
    · rw [if_neg h1] at h
      by_cases h2 : env.enum_fail (pad5 start) = true
      · rw [if_pos h2] at h
        obtain ⟨hle, ha, hb, hc, hmin⟩ := ih (start + 1) n h
        refine ⟨by omega, ha, hb, hc, ?_⟩
        intro m hm1 hm2
        rcases Nat.eq_or_lt_of_le hm1 with he | hlt
        · exact Or.inr (Or.inl (he ▸ h2))
        · exact hmin m (by omega) hm2
      · rw [if_neg h2] at h
        by_cases h3 : (logs.any fun f => strPrefix (pad5 start) f.name) = true
        · rw [if_pos h3] at h
          obtain ⟨hle, ha, hb, hc, hmin⟩ := ih (start + 1) n h
          refine ⟨by omega, ha, hb, hc, ?_⟩
          intro m hm1 hm2
          rcases Nat.eq_or_lt_of_le hm1 with he | hlt
          · exact Or.inr (Or.inr (he ▸ h3))
          · exact hmin m (by omega) hm2
        · rw [if_neg h3] at h
          obtain rfl : start = n := by simpa using h
          exact ⟨le_refl start, by simpa using h1, by simpa using h2,
            by simpa using h3, fun m hm1 hm2 => by omega⟩

/-- What a successful `create_task` did: the returned id is the padded
least counter value at or above `next_task_id` passing all three checks,
every skipped value failed one, the record is appended, the counter ends
two past the id, and the snapshot is persisted. -/
theorem create_task_spec (env : Env) (fuel : Nat) (s : MState)
    (nm cmd : String) (p mr : Int) (i : String) (s' : MState)
    (h : create_task env fuel s nm cmd p mr = some (i, s')) :
    ∃ n, i = pad5 n ∧ s.next_task_id ≤ n ∧
      hasTask s.tasks i = false ∧
      env.enum_fail i = false ∧
      (s.logs.any fun f => strPrefix i f.name) = false ∧
      (∀ m, s.next_task_id ≤ m → m < n → blockedAt env s.tasks s.logs m) ∧
      s'.tasks = s.tasks ++ [(i, newTask env i nm cmd p mr)] ∧
      s'.next_task_id = n + 2 ∧
      s'.saved = s'.tasks := by
  rw [create_task] at h
  cases halloc : allocLoop env s.tasks s.logs fuel s.next_task_id with
  | none => rw [halloc] at h; exact absurd h (by simp)
  | some n =>
    rw [halloc] at h
    obtain ⟨hle, ha, hb, hc, hmin⟩ :=
      allocLoop_some env s.tasks s.logs fuel s.next_task_id n halloc
    simp only [Option.some_inj, Prod.mk.injEq] at h
    obtain ⟨rfl, rfl⟩ := h
    exact ⟨n, rfl, hle, ha, hb, hc, hmin, rfl, rfl, rfl⟩

/-! ## Claim C2 -/

/-- Sequences of `create_task` and `cleanup_task` calls. -/
inductive COp where
  | create (fuel : Nat) (nm cmd : String) (priority max_retries : Int)
  | cleanup (i : String)

/-- One CLI invocation of the interleaving (a `create` whose unbounded
search would not terminate leaves the state untouched). -/
def runOp (env : Env) (s : MState) : COp → MState
  | .create fuel nm cmd p mr =>
      match create_task env fuel s nm cmd p mr with
      | none => s
      | some (_, s') => s'
  | .cleanup i => (cleanup_task s i).2

def runOps (env : Env) : MState → List COp → MState
  | s, [] => s
  | s, op :: ops => runOps env (runOp env s op) ops

theorem hasTask_eq_false_iff (reg : List (String × Task)) (i : String) :
    hasTask reg i = false ↔ lookupTask reg i = none := by
  rw [hasTask]
  cases lookupTask reg i <;> simp

theorem runOp_keys_nodup (env : Env) (s : MState) (op : COp)
    (h : (regKeys s.tasks).Nodup) : (regKeys (runOp env s op).tasks).Nodup := by
  cases op with
  | create fuel nm cmd p mr =>
    simp only [runOp]
    cases hc : create_task env fuel s nm cmd p mr with
    | none => exact h
    | some r =>
      obtain ⟨i, s'⟩ := r
      obtain ⟨n, _, _, hfree, _, _, _, htasks, _, _⟩ :=
        create_task_spec env fuel s nm cmd p mr i s' hc
      have hnotin : i ∉ regKeys s.tasks := by
        rw [← lookupTask_eq_none_iff, ← hasTask_eq_false_iff]
        exact hfree
      show (regKeys s'.tasks).Nodup
      rw [htasks]
      have hkeys : regKeys (s.tasks ++ [(i, newTask env i nm cmd p mr)])
          = regKeys s.tasks ++ [i] := by
        simp [regKeys]
      rw [hkeys, List.nodup_append]
      refine ⟨h, List.nodup_singleton i, ?_⟩
      intro a ha hb
      simp only [List.mem_singleton] at hb
      subst hb
      exact hnotin ha
  | cleanup i =>
    simp only [runOp, cleanup_task]
    by_cases hi : hasTask s.tasks i = true
    · rw [if_pos hi]
      have hsub : List.Sublist ((removeTask s.tasks i).map (·.1))
          (s.tasks.map (·.1)) :=
        List.Sublist.map (·.1) (List.filter_sublist s.tasks)
      exact h.sublist hsub
    · rw [if_neg hi]
      exact h

/-- C2: every id a `create_task` call returns is neither a key of the
registry nor a name prefix of any file in the logs directory at the
moment of allocation, and along every interleaving of `create_task` and
`cleanup_task` calls the live ids stay pairwise distinct. -/
theorem create_task_ids_fresh_and_unique (env : Env) :
    (∀ fuel s nm cmd p mr i s',
      create_task env fuel s nm cmd p mr = some (i, s') →
      lookupTask s.tasks i = none ∧
      ∀ f ∈ s.logs, strPrefix i f.name = false) ∧
    (∀ s ops, (regKeys s.tasks).Nodup →
      (regKeys (runOps env s ops).tasks).Nodup) := by
  constructor
  · intro fuel s nm cmd p mr i s' h
    obtain ⟨n, _, _, hfree, _, hlogs, _, _, _, _⟩ :=
      create_task_spec env fuel s nm cmd p mr i s' h
    refine ⟨(hasTask_eq_false_iff s.tasks i).mp hfree, ?_⟩
    intro f hf
    have := List.any_eq_false.mp hlogs f hf
    simpa using this
  · intro s ops
    induction ops generalizing s with
    | nil => exact id
    | cons op ops ih =>
      intro h
      exact ih (runOp env s op) (runOp_keys_nodup env s op h)

/-- A manager holding one live task and one stale log artifact of a
deleted task. -/
def sW : MState :=
  ⟨[("00001", taskPending)], [⟨"00002.out", "stale"⟩],
    [("00001", taskPending)], 1, []⟩

def sWnext : MState :=
  match create_task env0 5 sW "n" "c" 0 0 with
  | some (_, s) => s
  | none => sW

theorem create_task_ids_fresh_and_unique_witness :
    (lookupTask sW.tasks "00003" = none ∧
      ∀ f ∈ sW.logs, strPrefix "00003" f.name = false) ∧
    (regKeys (runOps env0 sW
      [.create 5 "n" "c" 0 0, .cleanup "00001", .create 5 "x" "y" 2 0]).tasks).Nodup :=
  ⟨(create_task_ids_fresh_and_unique env0).1 5 sW "n" "c" 0 0 "00003" sWnext (by decide),
    (create_task_ids_fresh_and_unique env0).2 sW
      [.create 5 "n" "c" 0 0, .cleanup "00001", .create 5 "x" "y" 2 0] (by decide)⟩

/-! ## Claim C4

The claim as frozen says each `create_task` call returns *the smallest
unused counter value* meeting (a) and (b).  The code starts the search at
the persistent `next_task_id` and, because the loop already advanced the
counter before the body advances it again (`core.py` lines 167 and 181),
the counter ends two past each allocated id, so the very next call skips
a perfectly usable value: from a fresh state two calls return `00001`
and `00003` even though `00002` is unused.  The amended statement —
smallest *from the current counter upward* — is proved below. -/

def sAfterFirst : MState :=
  match create_task env0 5 s0 "build" "make all" 0 0 with
  | some (_, s) => s
  | none => s0

/-- C4 (counterexample): after a first create returns `00001`, the next
returns `00003` although the smaller counter value `2` is not a registry
key and prefixes no log file — the returned id is not the smallest
unused value. -/
theorem create_task_not_globally_smallest :
    create_task env0 5 s0 "build" "make all" 0 0 = some ("00001", sAfterFirst) ∧
    hasTask sAfterFirst.tasks (pad5 2) = false ∧
    env0.enum_fail (pad5 2) = false ∧
    (sAfterFirst.logs.any fun f => strPrefix (pad5 2) f.name) = false ∧
    (create_task env0 5 sAfterFirst "b2" "c2" 0 0).map (·.1) = some (pad5 3) ∧
    2 < 3 :=
  ⟨rfl, rfl, rfl, rfl, rfl, by omega⟩

/-- C4 (amended): `create_task` returns the smallest counter value at or
above the manager's `next_task_id` that is no registry key, suffers no
enumeration failure, and prefixes no log file name — skipped candidates
each failed one of those checks, an enumeration failure conservatively
counting as a collision — formatted by `f"{n:05d}"`; the counter then
ends two past the allocated value, so later ids may skip values. -/
theorem create_task_least_id_from_counter (env : Env) (fuel : Nat)
    (s : MState) (nm cmd : String) (p mr : Int) (i : String) (s' : MState)
    (h : create_task env fuel s nm cmd p mr = some (i, s')) :
    ∃ n, i = pad5 n ∧ s.next_task_id ≤ n ∧
      hasTask s.tasks i = false ∧
      env.enum_fail i = false ∧
      (s.logs.any fun f => strPrefix i f.name) = false ∧
      (∀ m, s.next_task_id ≤ m → m < n → blockedAt env s.tasks s.logs m) ∧
      s'.next_task_id = n + 2 := by
  obtain ⟨n, h1, h2, h3, h4, h5, h6, _, h8, _⟩ :=
    create_task_spec env fuel s nm cmd p mr i s' h
  exact ⟨n, h1, h2, h3, h4, h5, h6, h8⟩

/-- An environment whose log-directory enumeration raises for the
pattern of candidate `00001`. -/
def envSkip : Env := { env0 with enum_fail := fun c => c == "00001" }

def sSkip : MState :=
  match create_task envSkip 5 s0 "n" "c" 0 0 with
  | some (_, s) => s
  | none => s0

theorem create_task_least_id_from_counter_witness :
    ∃ n, ("00002" : String) = pad5 n ∧ s0.next_task_id ≤ n ∧
      hasTask s0.tasks "00002" = false ∧
      envSkip.enum_fail "00002" = false ∧
      (s0.logs.any fun f => strPrefix "00002" f.name) = false ∧
      (∀ m, s0.next_task_id ≤ m → m < n → blockedAt envSkip s0.tasks s0.logs m) ∧
      sSkip.next_task_id = n + 2 :=
  create_task_least_id_from_counter envSkip 5 s0 "n" "c" 0 0 "00002" sSkip rfl

/-! ## Claim C9: priority non-interference

Two worlds that differ only in the `priority` fields of their task
records stay in lockstep under every lifecycle operation: `priority` is
stored and echoed but never read by a guard, a transition, the
allocator, the sweeper, or output capture. -/

/-- `b` is `a` with (only) its priority possibly replaced. -/
def prEqTask (a b : Task) : Prop := ∃ pr : Int, b = { a with priority := pr }

/-- Registries equal up to priorities: same keys in the same order,
records pairwise `prEqTask`. -/
def prEqReg (r₁ r₂ : List (String × Task)) : Prop :=
  List.Forall₂ (fun p q => p.1 = q.1 ∧ prEqTask p.2 q.2) r₁ r₂

/-- Optional lookup results equal up to priority. -/
def prEqOpt : Option Task → Option Task → Prop
  | none, none => True
  | some a, some b => prEqTask a b
  | _, _ => False

/-- Whole states equal up to the priorities stored in their registries
and snapshots. -/
def prEqState (s₁ s₂ : MState) : Prop :=
  prEqReg s₁.tasks s₂.tasks ∧ s₁.logs = s₂.logs ∧
  prEqReg s₁.saved s₂.saved ∧ s₁.next_task_id = s₂.next_task_id ∧
  s₁.sent_emails = s₂.sent_emails

theorem prEqTask_self (a : Task) : prEqTask a a := ⟨a.priority, rfl⟩

theorem prEqReg_self (r : List (String × Task)) : prEqReg r r := by
  induction r with
  | nil => exact List.Forall₂.nil
  | cons p ps ih => exact List.Forall₂.cons ⟨rfl, prEqTask_self p.2⟩ ih

theorem lookupTask_prEq {r₁ r₂ : List (String × Task)} (h : prEqReg r₁ r₂)
    (i : String) : prEqOpt (lookupTask r₁ i) (lookupTask r₂ i) := by
  induction h with
  | nil => exact trivial
  | @cons a b l₁ l₂ hpq hrest ih =>
    obtain ⟨hkey, hpt⟩ := hpq
    simp only [lookupTask]
    by_cases hk : a.1 = i
    · rw [if_pos hk, if_pos (hkey ▸ hk)]
      exact hpt
    · rw [if_neg hk, if_neg (fun hc => hk (hkey ▸ hc))]
      exact ih

theorem hasTask_prEq {r₁ r₂ : List (String × Task)} (h : prEqReg r₁ r₂)
    (i : String) : hasTask r₁ i = hasTask r₂ i := by
  have hp := lookupTask_prEq h i
  rw [hasTask, hasTask]
  cases h₁ : lookupTask r₁ i <;> cases h₂ : lookupTask r₂ i <;>
      rw [h₁, h₂] at hp <;>
    first | rfl | exact (hp : False).elim

theorem updateTask_prEq {r₁ r₂ : List (String × Task)} (h : prEqReg r₁ r₂)
    (i : String) (f g : Task → Task)
    (hfg : ∀ a b, prEqTask a b → prEqTask (f a) (g b)) :
    prEqReg (updateTask r₁ i f) (updateTask r₂ i g) := by
  induction h with
  | nil => exact List.Forall₂.nil
  | @cons a b l₁ l₂ hpq hrest ih =>
    obtain ⟨hkey, hpt⟩ := hpq
    simp only [updateTask, List.map_cons]
    by_cases hk : a.1 = i
    · rw [if_pos hk, if_pos (hkey ▸ hk)]
      exact List.Forall₂.cons ⟨hkey, hfg _ _ hpt⟩ ih
    · rw [if_neg hk, if_neg (fun hc => hk (hkey ▸ hc))]
      exact List.Forall₂.cons ⟨hkey, hpt⟩ ih

theorem removeTask_prEq {r₁ r₂ : List (String × Task)} (h : prEqReg r₁ r₂)
    (i : String) : prEqReg (removeTask r₁ i) (removeTask r₂ i) := by
  induction h with
  | nil => exact List.Forall₂.nil
  | @cons a b l₁ l₂ hpq hrest ih =>
    obtain ⟨hkey, hpt⟩ := hpq
    rw [removeTask_cons, removeTask_cons]
    by_cases hk : a.1 = i
    · rw [if_pos hk, if_pos (hkey ▸ hk)]
      exact ih
    · rw [if_neg hk, if_neg (fun hc => hk (hkey ▸ hc))]
      exact List.Forall₂.cons ⟨hkey, hpt⟩ ih

theorem append_single_prEq {r₁ r₂ : List (String × Task)} (h : prEqReg r₁ r₂)
    (i : String) (a b : Task) (hab : prEqTask a b) :
    prEqReg (r₁ ++ [(i, a)]) (r₂ ++ [(i, b)]) :=
  List.rel_append h (List.Forall₂.cons ⟨rfl, hab⟩ List.Forall₂.nil)

theorem allocLoop_prEq (env : Env) {r₁ r₂ : List (String × Task)}
    (h : prEqReg r₁ r₂) (logs : List LogFile) :
    ∀ fuel n, allocLoop env r₁ logs fuel n = allocLoop env r₂ logs fuel n := by
  intro fuel
  induction fuel with
  | zero => intro n; rfl
  | succ fuel ih =>
    intro n
    simp only [allocLoop]
    rw [hasTask_prEq h (pad5 n), ih (n + 1)]

/-- `create_task` results equal up to priority: same id (or both
non-terminating), successor states equal up to priority. -/
def prEqCreate : Option (String × MState) → Option (String × MState) → Prop
  | none, none => True
  | some (i₁, t₁), some (i₂, t₂) => i₁ = i₂ ∧ prEqState t₁ t₂
  | _, _ => False

theorem create_task_prEq (env : Env) {s₁ s₂ : MState} (h : prEqState s₁ s₂)
    (fuel : Nat) (nm cmd : String) (p₁ p₂ mr : Int) :
    prEqCreate (create_task env fuel s₁ nm cmd p₁ mr)
      (create_task env fuel s₂ nm cmd p₂ mr) := by
  obtain ⟨ht, hl, hs, hn, he⟩ := h
  simp only [create_task, ← hl, ← hn, allocLoop_prEq env ht s₁.logs fuel s₁.next_task_id]
  cases halloc : allocLoop env s₂.tasks s₁.logs fuel s₁.next_task_id with
  | none => exact trivial
  | some n =>
    have happ := append_single_prEq ht (pad5 n)
      (newTask env (pad5 n) nm cmd p₁ mr) (newTask env (pad5 n) nm cmd p₂ mr)
      ⟨p₂, rfl⟩
    exact ⟨rfl, happ, rfl, happ, rfl, he⟩

/-- The updater of the session-failure branch of `start_task` commutes
with a priority override. -/
theorem prEq_set_failed (env : Env) (a b : Task) (hab : prEqTask a b) :
    prEqTask { a with status := "failed", error_message := some env.create_stderr }
      { b with status := "failed", error_message := some env.create_stderr } := by
  obtain ⟨q, rfl⟩ := hab
  exact ⟨q, rfl⟩

theorem prEq_set_running (env : Env) (a b : Task) (hab : prEqTask a b) :
    prEqTask { a with status := "running", start_time := some env.now, pid := if env.pid_ok then some env.pid else a.pid }
      { b with status := "running", start_time := some env.now, pid := if env.pid_ok then some env.pid else b.pid } := by
  obtain ⟨q, rfl⟩ := hab
  exact ⟨q, rfl⟩

theorem start_task_prEq (env : Env) {s₁ s₂ : MState} (h : prEqState s₁ s₂)
    (i : String) (rt : Bool) :
    (start_task env s₁ i rt).1 = (start_task env s₂ i rt).1 ∧
    (start_task env s₁ i rt).2.2 = (start_task env s₂ i rt).2.2 ∧
    prEqState (start_task env s₁ i rt).2.1 (start_task env s₂ i rt).2.1 := by
  obtain ⟨ht, hl, hs, hn, he⟩ := h
  have hlk := lookupTask_prEq ht i
  simp only [start_task, ← hl]
  cases h₁ : lookupTask s₁.tasks i with
  | none =>
    cases h₂ : lookupTask s₂.tasks i with
    | none => exact ⟨rfl, rfl, ht, hl, hs, hn, he⟩
    | some t₂ =>
      rw [h₁, h₂] at hlk
      exact (hlk : False).elim
  | some t₁ =>
    cases h₂ : lookupTask s₂.tasks i with
    | none =>
      rw [h₁, h₂] at hlk
      exact (hlk : False).elim
    | some t₂ =>
      rw [h₁, h₂] at hlk
      obtain ⟨pr, rfl⟩ := hlk
      simp only
      by_cases hst : t₁.status ≠ "pending"
      · rw [if_pos hst, if_pos hst]
        exact ⟨rfl, rfl, ht, hl, hs, hn, he⟩
      · rw [if_neg hst, if_neg hst]
        by_cases hret : env.create_ret ≠ 0
        · rw [if_pos hret, if_pos hret]
          have hupd := updateTask_prEq ht i _ _ (prEq_set_failed env)
          exact ⟨rfl, rfl, hupd, rfl, hupd, hn, he⟩
        · rw [if_neg hret, if_neg hret]
          have hupd := updateTask_prEq ht i _ _ (prEq_set_running env)
          exact ⟨rfl, rfl, hupd, rfl, hupd, hn, he⟩

theorem get_task_status_prEq (env : Env) {s₁ s₂ : MState} (h : prEqState s₁ s₂)
    (i : String) :
    prEqOpt (get_task_status env s₁ i).1 (get_task_status env s₂ i).1 ∧
    prEqState (get_task_status env s₁ i).2 (get_task_status env s₂ i).2 := by
  obtain ⟨ht, hl, hs, hn, he⟩ := h
  have hlk := lookupTask_prEq ht i
  simp only [get_task_status]
  cases h₁ : lookupTask s₁.tasks i with
  | none =>
    cases h₂ : lookupTask s₂.tasks i with
    | none => exact ⟨trivial, ht, hl, hs, hn, he⟩
    | some t₂ =>
      rw [h₁, h₂] at hlk
      exact (hlk : False).elim
  | some t₁ =>
    cases h₂ : lookupTask s₂.tasks i with
    | none =>
      rw [h₁, h₂] at hlk
      exact (hlk : False).elim
    | some t₂ =>
      rw [h₁, h₂] at hlk
      obtain ⟨pr, rfl⟩ := hlk
      simp only
      by_cases hgd : t₁.status = "running" ∧ env.has_session = false
      · rw [if_pos hgd, if_pos hgd]
        have hupd := updateTask_prEq ht i
          (fun _ => { t₁ with status := "completed", end_time := some env.now })
          (fun _ => { { t₁ with priority := pr } with status := "completed", end_time := some env.now })
          (fun _ _ _ => ⟨pr, rfl⟩)
        refine ⟨⟨pr, rfl⟩, hupd, hl, hupd, hn, ?_⟩
        rw [he]
        rfl
      · rw [if_neg hgd, if_neg hgd]
        exact ⟨⟨pr, rfl⟩, ht, hl, hs, hn, he⟩

theorem stop_task_prEq (env : Env) {s₁ s₂ : MState} (h : prEqState s₁ s₂)
    (i : String) (force : Bool) :
    (stop_task env s₁ i force).1 = (stop_task env s₂ i force).1 ∧
    prEqState (stop_task env s₁ i force).2 (stop_task env s₂ i force).2 := by
  obtain ⟨ht, hl, hs, hn, he⟩ := h
  have hlk := lookupTask_prEq ht i
  simp only [stop_task]
  cases h₁ : lookupTask s₁.tasks i with
  | none =>
    cases h₂ : lookupTask s₂.tasks i with
    | none => exact ⟨rfl, ht, hl, hs, hn, he⟩
    | some t₂ =>
      rw [h₁, h₂] at hlk
      exact (hlk : False).elim
  | some t₁ =>
    cases h₂ : lookupTask s₂.tasks i with
    | none =>
      rw [h₁, h₂] at hlk
      exact (hlk : False).elim
    | some t₂ =>
      rw [h₁, h₂] at hlk
      obtain ⟨pr, rfl⟩ := hlk
      simp only
      by_cases hgd : t₁.status ≠ "running" ∧ t₁.status ≠ "pending"
      · rw [if_pos hgd, if_pos hgd]
        exact ⟨rfl, ht, hl, hs, hn, he⟩
      · rw [if_neg hgd, if_neg hgd]
        have hupd := updateTask_prEq ht i
          (fun _ => { t₁ with status := if force then "killed" else "completed", end_time := some env.now })
          (fun _ => { { t₁ with priority := pr } with status := if force then "killed" else "completed", end_time := some env.now })
          (fun _ _ _ => ⟨pr, rfl⟩)
        refine ⟨rfl, hupd, hl, hupd, hn, ?_⟩
        rw [he]
        rfl

theorem cleanup_task_prEq {s₁ s₂ : MState} (h : prEqState s₁ s₂) (i : String) :
    (cleanup_task s₁ i).1 = (cleanup_task s₂ i).1 ∧
    prEqState (cleanup_task s₁ i).2 (cleanup_task s₂ i).2 := by
  obtain ⟨ht, hl, hs, hn, he⟩ := h
  simp only [cleanup_task, hasTask_prEq ht i]
  by_cases hi : hasTask s₂.tasks i = true
  · rw [if_pos hi, if_pos hi]
    refine ⟨rfl, removeTask_prEq ht i, ?_, removeTask_prEq ht i, hn, he⟩
    rw [hl]
    rfl
  · rw [if_neg hi, if_neg hi]
    exact ⟨rfl, ht, hl, hs, hn, he⟩

theorem filter_prEq {r₁ r₂ : List (String × Task)} (h : prEqReg r₁ r₂)
    (pred : String × Task → Bool)
    (hpred : ∀ k t q, pred (k, { t with priority := q }) = pred (k, t)) :
    prEqReg (r₁.filter pred) (r₂.filter pred) := by
  induction h with
  | nil => exact List.Forall₂.nil
  | @cons a b l₁ l₂ hpq hrest ih =>
    obtain ⟨k, t⟩ := a
    obtain ⟨k', t'⟩ := b
    obtain ⟨hkey, hpt⟩ := hpq
    obtain ⟨q, hb⟩ := hpt
    simp only at hkey hb
    subst hkey hb
    rw [List.filter_cons, List.filter_cons]
    rw [show pred (k, { t with priority := q }) = pred (k, t) from hpred k t q]
    cases hpa : pred (k, t) with
    | true => exact List.Forall₂.cons ⟨rfl, ⟨q, rfl⟩⟩ ih
    | false => exact ih

theorem mapfst_prEq {r₁ r₂ : List (String × Task)} (h : prEqReg r₁ r₂) :
    r₁.map (·.1) = r₂.map (·.1) := by
  induction h with
  | nil => rfl
  | @cons a b l₁ l₂ hpq hrest ih =>
    simp only [List.map_cons, ih, hpq.1]

theorem foldl_cleanup_prEq (ids : List String) :
    ∀ {s₁ s₂ : MState}, prEqState s₁ s₂ →
      prEqState (ids.foldl (fun st i => (cleanup_task st i).2) s₁)
        (ids.foldl (fun st i => (cleanup_task st i).2) s₂) := by
  induction ids with
  | nil => exact fun h => h
  | cons i ids ih =>
    intro s₁ s₂ h
    exact ih ((cleanup_task_prEq h i).2)

theorem oldPred_ignores_priority (env : Env) (age : Int) (k : String)
    (t : Task) (q : Int) :
    oldPred env age (k, { t with priority := q }) = oldPred env age (k, t) := rfl

theorem cleanup_old_tasks_prEq (env : Env) {s₁ s₂ : MState}
    (h : prEqState s₁ s₂) (age : Int) :
    prEqState (cleanup_old_tasks env s₁ age) (cleanup_old_tasks env s₂ age) := by
  have ht := h.1
  simp only [cleanup_old_tasks]
  rw [show ((s₂.tasks.filter (oldPred env age)).map (·.1))
      = ((s₁.tasks.filter (oldPred env age)).map (·.1)) from
    (mapfst_prEq (filter_prEq ht (oldPred env age)
      (oldPred_ignores_priority env age))).symm]
  exact foldl_cleanup_prEq _ h

theorem get_tmux_output_prEq (env : Env) {s₁ s₂ : MState} (h : prEqState s₁ s₂)
    (i : String) (lines : Int) :
    get_tmux_output env s₁ i lines = get_tmux_output env s₂ i lines := by
  obtain ⟨ht, hl, hs, hn, he⟩ := h
  have hlk := lookupTask_prEq ht i
  simp only [get_tmux_output, ← hl]
  cases h₁ : lookupTask s₁.tasks i <;> cases h₂ : lookupTask s₂.tasks i <;>
      rw [h₁, h₂] at hlk <;>
    first | rfl | exact (hlk : False).elim

/-- C9: two states that differ only in the priorities stored in their
task records produce, under every lifecycle operation, identical
results (`create_task` aside from the stored priority, which is also the
only difference of the returned records of `get_task_status`) and
successor states that again differ only in priorities: priority never
influences whether, when, or how a task executes. -/
theorem priority_noninterference (s₁ s₂ : MState) (h : prEqState s₁ s₂) :
    (∀ env fuel nm cmd p₁ p₂ mr,
      prEqCreate (create_task env fuel s₁ nm cmd p₁ mr)
        (create_task env fuel s₂ nm cmd p₂ mr)) ∧
    (∀ env i rt,
      (start_task env s₁ i rt).1 = (start_task env s₂ i rt).1 ∧
      (start_task env s₁ i rt).2.2 = (start_task env s₂ i rt).2.2 ∧
      prEqState (start_task env s₁ i rt).2.1 (start_task env s₂ i rt).2.1) ∧
    (∀ env i,
      prEqOpt (get_task_status env s₁ i).1 (get_task_status env s₂ i).1 ∧
      prEqState (get_task_status env s₁ i).2 (get_task_status env s₂ i).2) ∧
    (∀ env i force,
      (stop_task env s₁ i force).1 = (stop_task env s₂ i force).1 ∧
      prEqState (stop_task env s₁ i force).2 (stop_task env s₂ i force).2) ∧
    (∀ i, (cleanup_task s₁ i).1 = (cleanup_task s₂ i).1 ∧
      prEqState (cleanup_task s₁ i).2 (cleanup_task s₂ i).2) ∧
    (∀ env age,
      prEqState (cleanup_old_tasks env s₁ age) (cleanup_old_tasks env s₂ age)) ∧
    (∀ env i lines,
      get_tmux_output env s₁ i lines = get_tmux_output env s₂ i lines) :=
  ⟨fun env fuel nm cmd p₁ p₂ mr => create_task_prEq env h fuel nm cmd p₁ p₂ mr,
    fun env i rt => start_task_prEq env h i rt,
    fun env i => get_task_status_prEq env h i,
    fun env i force => stop_task_prEq env h i force,
    fun i => cleanup_task_prEq h i,
    fun env age => cleanup_old_tasks_prEq env h age,
    fun env i lines => get_tmux_output_prEq env h i lines⟩

/-- `sPending` with the task's priority raised to 7. -/
def sPendingHi : MState :=
  ⟨[("00001", { taskPending with priority := 7 })], [],
    [("00001", { taskPending with priority := 7 })], 3, []⟩

theorem prEq_sPending_sPendingHi : prEqState sPending sPendingHi :=
  ⟨List.Forall₂.cons ⟨rfl, ⟨7, rfl⟩⟩ List.Forall₂.nil, rfl,
    List.Forall₂.cons ⟨rfl, ⟨7, rfl⟩⟩ List.Forall₂.nil, rfl, rfl⟩

theorem priority_noninterference_witness :
    prEqCreate (create_task env0 5 sPending "n" "c" 0 0)
      (create_task env0 5 sPendingHi "n" "c" 9 0) ∧
    ((start_task env0 sPending "00001" false).1
      = (start_task env0 sPendingHi "00001" false).1 ∧
      (start_task env0 sPending "00001" false).2.2
        = (start_task env0 sPendingHi "00001" false).2.2 ∧
      prEqState (start_task env0 sPending "00001" false).2.1
        (start_task env0 sPendingHi "00001" false).2.1) ∧
    (prEqOpt (get_task_status env0 sPending "00001").1
      (get_task_status env0 sPendingHi "00001").1 ∧
      prEqState (get_task_status env0 sPending "00001").2
        (get_task_status env0 sPendingHi "00001").2) ∧
    ((stop_task env0 sPending "00001" true).1
      = (stop_task env0 sPendingHi "00001" true).1 ∧
      prEqState (stop_task env0 sPending "00001" true).2
        (stop_task env0 sPendingHi "00001" true).2) ∧
    ((cleanup_task sPending "00001").1 = (cleanup_task sPendingHi "00001").1 ∧
      prEqState (cleanup_task sPending "00001").2
        (cleanup_task sPendingHi "00001").2) ∧
    prEqState (cleanup_old_tasks env0 sPending 24)
      (cleanup_old_tasks env0 sPendingHi 24) ∧
    get_tmux_output env0 sPending "00001" 10
      = get_tmux_output env0 sPendingHi "00001" 10 :=
  ⟨(priority_noninterference sPending sPendingHi prEq_sPending_sPendingHi).1
      env0 5 "n" "c" 0 9 0,
    (priority_noninterference sPending sPendingHi prEq_sPending_sPendingHi).2.1
      env0 "00001" false,
    (priority_noninterference sPending sPendingHi prEq_sPending_sPendingHi).2.2.1
      env0 "00001",
    (priority_noninterference sPending sPendingHi prEq_sPending_sPendingHi).2.2.2.1
      env0 "00001" true,
    (priority_noninterference sPending sPendingHi prEq_sPending_sPendingHi).2.2.2.2.1
      "00001",
    (priority_noninterference sPending sPendingHi prEq_sPending_sPendingHi).2.2.2.2.2.1
      env0 24,
    (priority_noninterference sPending sPendingHi prEq_sPending_sPendingHi).2.2.2.2.2.2
      env0 "00001" 10⟩

end TaskMgr
